import Mathlib

/-!
Verification of the TinyLLM document-management module
(`chatbot/documents.py`): a shallow embedding of the chunker, the
record-building part of `add_document`, the store-facing operations
(`get_document`, `delete_document`) and the shared retry discipline,
together with theorems checking the specification's claims.

Text is modelled as `List Char`; Python `None`-able string parameters as
`Option (List Char)`; Python exceptions as `Except PyError`.
-/

namespace TinyLLM

/-- Model of Python `str.splitlines` restricted to the `'\n'` separator (the
only separator the chunker introduces; the other universal-newline characters
are abstracted away).  The worker carries the current line accumulator in
reverse order. -/
def splitlinesGo : List Char → List Char → List (List Char)
  | [], acc => [acc.reverse]
  | c :: rest, acc =>
      if c = '\n' then
        acc.reverse :: (if rest.isEmpty then [] else splitlinesGo rest [])
      else
        splitlinesGo rest (c :: acc)

/-- Python `text.splitlines()`: empty text yields no lines, and a trailing
newline does not produce a trailing empty line. -/
def pySplitlines (s : List Char) : List (List Char) :=
  match s with
  | [] => []
  | _ => splitlinesGo s []

/-- Concatenation of a list of character lists (string concatenation). -/
def joinAll : List (List Char) → List Char
  | [] => []
  | l :: ls => l ++ joinAll ls

/-- The loop body of `break_up_content` (documents.py lines 590-596): iterate
over the lines, flushing `current_chunk` into `result` whenever appending the
next line would make it exceed `max_size`, and always appending the line plus
a `'\n'` to the running chunk; the final buffer is appended after the loop. -/
def bucGo (max_size : Int) : List (List Char) → List Char → List (List Char) → List (List Char)
  | [], cur, res => res ++ [cur]
  | line :: rest, cur, res =>
      if (cur.length : Int) + (line.length : Int) > max_size then
        bucGo max_size rest (line ++ ['\n']) (res ++ [cur])
      else
        bucGo max_size rest (cur ++ line ++ ['\n']) res

/-- `break_up_content(text, max_size)` (documents.py lines 584-598): texts no
longer than `max_size` are returned unchanged as a single chunk; longer texts
are split into lines and greedily reassembled into chunks. -/
def break_up_content (text : List Char) (max_size : Int) : List (List Char) :=
  if (text.length : Int) > max_size then
    bucGo max_size (pySplitlines text) [] []
  else
    [text]

/-- Python exceptions raised or surfaced by the module, plus the spec's
`NotFound` error kind (documents.py raises `ValueError` and
`WeaviateConnectionError`; `IndexError` is what `objects[0]` on an empty
result raises). -/
inductive PyError where
  | valueError (msg : String)
  | indexError
  | weaviateConnectionError (msg : String)
  | notFound
deriving DecidableEq

/-- Python truthiness of a string: `False` exactly for the empty string. -/
def truthy (s : List Char) : Bool := !s.isEmpty

/-- Python truthiness of an optional string: `False` for `None` and for the
empty string. -/
def truthyOpt : Option (List Char) → Bool
  | none => false
  | some s => truthy s

/-- One record of the `dd` list that `add_document` builds and submits to
`insert_many` (documents.py lines 420-436). -/
structure DocRecord where
  title : List Char
  chunk : Option (List Char)
  doc_type : List Char
  file : List Char
  content : List Char
  creation_time : Nat
deriving DecidableEq

/-- The f-string `" - Section {ci} of {total_chunks}"` of documents.py line
417. -/
def sectionSuffix (ci total : Nat) : List Char :=
  (" - Section " ++ Nat.repr ci ++ " of " ++ Nat.repr total).data

/-- The chunk-record loop of `add_document` (documents.py lines 412-427):
`ci` counts fragments starting at 0 and is incremented before it is used in
the title suffix, which is added only when `total > 1`. -/
def buildChunkRecords (title doc_type filename content : List Char) (now : Nat)
    (total : Nat) : Nat → List (List Char) → List DocRecord
  | _, [] => []
  | ci, ch :: rest =>
      { title := title ++ (if total > 1 then sectionSuffix (ci + 1) total else []),
        chunk := some ch,
        doc_type := doc_type,
        file := filename,
        content := content,
        creation_time := now } ::
      buildChunkRecords title doc_type filename content now total (ci + 1) rest

/-- The pure record-building part of `add_document` (documents.py lines
401-436): validation of the arguments, defaulting `content` to `chunk`,
auto-chunking via `break_up_content` when no chunk was supplied and the
configured maximum chunk size is positive, and otherwise a single record
carrying the original `chunk` argument.  `now` models the `time.time()`
timestamp. -/
def add_document_records (max_chunk_size : Int) (title doc_type filename : List Char)
    (chunk content : Option (List Char)) (now : Nat) : Except PyError (List DocRecord) :=
  if !truthyOpt chunk && !truthyOpt content then
    .error (.valueError "Missing document content")
  else
    let content := if !truthyOpt content then chunk else content
    if !(truthy title && truthy doc_type && truthy filename && truthyOpt content) then
      .error (.valueError "Missing document properties")
    else
      let contentText := content.getD []
      if !truthyOpt chunk && decide (max_chunk_size > 0) then
        let chunks := break_up_content contentText max_chunk_size
        .ok (buildChunkRecords title doc_type filename contentText now chunks.length 0 chunks)
      else
        .ok [{ title := title, chunk := chunk, doc_type := doc_type,
               file := filename, content := contentText, creation_time := now }]

/-- Client configuration fields relevant here (documents.py lines 92-93):
the retry budget and the maximum chunk size. -/
structure DocumentsConfig where
  retry : Nat
  max_chunk_size : Int
deriving DecidableEq

/-- `set_max_chunk_size` (documents.py lines 131-135): stores the given size
unvalidated. -/
def set_max_chunk_size (cfg : DocumentsConfig) (size : Int) : DocumentsConfig :=
  { cfg with max_chunk_size := size }

/-- One object stored in a collection of the remote store, with the
properties this module reads and writes; ids are modelled as naturals. -/
structure StoredObject where
  uuid : Nat
  file : List Char
  title : List Char
  chunk : Option (List Char)
  doc_type : List Char
  content : List Char
  creation_time : Nat
deriving DecidableEq

/-- The dictionary `get_document` builds from the fetched properties
(documents.py lines 285-293). -/
structure FetchedDocument where
  uuid : Nat
  file : List Char
  title : List Char
  chunk : Option (List Char)
  doc_type : List Char
  content : List Char
  creation_time : Nat
deriving DecidableEq

/-- The remote store's `fetch_objects` with an id filter (documents.py lines
281-283), per the external interface: all objects of the collection whose id
equals `uuid`. -/
def fetch_objects_by_id (objs : List StoredObject) (uuid : Nat) : List StoredObject :=
  objs.filter (fun o => o.uuid == uuid)

/-- `get_document` (documents.py lines 269-302), on a reachable store: it
reads `udocs.objects[0]` without checking for emptiness, so an id matching no
object raises `IndexError` — which the surrounding `except
WeaviateConnectionError` clause does not catch, so it propagates uncaught. -/
def get_document (objs : List StoredObject) (uuid : Nat) : Except PyError FetchedDocument :=
  match fetch_objects_by_id objs uuid with
  | [] => .error .indexError
  | o :: _ =>
      .ok { uuid := uuid, file := o.file, title := o.title, chunk := o.chunk,
            doc_type := o.doc_type, content := o.content,
            creation_time := o.creation_time }

/-- The remote store's `delete_by_id` per the external interface (spec section
6): remove the object with the given id, returning whether one was removed
(no exception for a missing id). -/
def delete_by_id (objs : List StoredObject) (uuid : Nat) :
    List StoredObject × Bool :=
  (objs.filter (fun o => o.uuid != uuid), objs.any (fun o => o.uuid == uuid))

/-- `delete_document` (documents.py lines 353-387) on a reachable store: by
id it issues one `delete_by_id`; by filename it resolves via `list_documents`
every id whose `file` property equals the filename and deletes each one, `r`
keeping the last delete's result (`none` when the loop body never ran);
with neither argument it raises `ValueError`.  Returns the new collection
contents together with `r`. -/
def delete_document (objs : List StoredObject) (uuid : Option Nat)
    (filename : Option (List Char)) :
    Except PyError (List StoredObject × Option Bool) :=
  match uuid with
  | some u =>
      let p := delete_by_id objs u
      .ok (p.1, some p.2)
  | none =>
      match filename with
      | some fn =>
          let uuids := (objs.filter (fun o => o.file == fn)).map (fun o => o.uuid)
          .ok (uuids.foldl
            (fun st u =>
              let p := delete_by_id st.1 u
              (p.1, some p.2))
            (objs, (none : Option Bool)))
      | none => .error (.valueError "Missing document ID or filename")

/-- Outcome of one attempt of a wrapped remote call: success with a value, or
a `WeaviateConnectionError` (connectivity failure). -/
inductive CallResult (α : Type) where
  | ok (v : α)
  | connError
deriving DecidableEq

/-- Outcome of a whole retry-wrapped operation: success, or the
connection-exhausted `WeaviateConnectionError` the wrapper (or a reconnect
inside it) raises. -/
inductive OpOutcome (α : Type) where
  | ok (v : α)
  | connectionExhausted
deriving DecidableEq

/-- The retry loop shared by every public operation (e.g. documents.py lines
437-452 for `add_document`, 146-161 for `all_collections`, 278-301 for
`get_document`): `x = self.retry; while x: try the call, break on success;
on WeaviateConnectionError reconnect, decrement x; if not x: raise`.  `op k`
is the k-th attempt of the remote call, `reconnect k` tells whether the
reconnect after failed attempt `k` returns (rather than raising after its own
exhausted budget).  The pair returned is the outcome together with the number
of remote-call attempts made. -/
def retryOp {α : Type} (op : Nat → CallResult α) (reconnect : Nat → Bool) :
    Nat → Nat → OpOutcome α × Nat
  | 0, made => (.connectionExhausted, made)
  | x + 1, made =>
      match op made with
      | .ok v => (.ok v, made + 1)
      | .connError =>
          if reconnect made then retryOp op reconnect x (made + 1)
          else (.connectionExhausted, made + 1)

/-- The loop of `connect` (documents.py lines 98-120): `x = self.retry;
while x: try to connect, return True on success; on failure decrement; if
not x: raise`.  `conn k` tells whether the k-th connection attempt succeeds;
the pair is the result and the number of connection attempts made. -/
def connectLoop (conn : Nat → Bool) : Nat → Nat → Except PyError Bool × Nat
  | 0, made => (.error (.weaviateConnectionError "Unable to connect to Weaviate"), made)
  | x + 1, made =>
      if conn made then (.ok true, made + 1)
      else connectLoop conn x (made + 1)

/-- `connect` starts its loop with the full retry budget and no attempts
made. -/
def connect (conn : Nat → Bool) (retry : Nat) : Except PyError Bool × Nat :=
  connectLoop conn retry 0

/-! ## Helper lemmas -/

theorem truthy_of_ne_nil {l : List Char} (h : l ≠ []) : truthy l = true := by
  cases l with
  | nil => exact absurd rfl h
  | cons a t => rfl

theorem isEmpty_false_of_ne_nil {l : List Char} (h : l ≠ []) : l.isEmpty = false := by
  cases l with
  | nil => exact absurd rfl h
  | cons a t => rfl

theorem pySplitlines_cons_eq (s : List Char) (h : s ≠ []) :
    pySplitlines s = splitlinesGo s [] := by
  cases s with
  | nil => exact absurd rfl h
  | cons c t => rfl

theorem splitlinesGo_ne_nil : ∀ (s acc : List Char), splitlinesGo s acc ≠ [] := by
  intro s
  induction s with
  | nil =>
      intro acc
      simp [splitlinesGo]
  | cons c rest ih =>
      intro acc
      simp only [splitlinesGo]
      by_cases hc : c = '\n'
      · rw [if_pos hc]
        simp
      · rw [if_neg hc]
        exact ih (c :: acc)

theorem splitlinesGo_no_newline :
    ∀ (s acc : List Char), ('\n' : Char) ∉ acc →
      ∀ l ∈ splitlinesGo s acc, ('\n' : Char) ∉ l := by
  intro s
  induction s with
  | nil =>
      intro acc hacc l hl
      simp [splitlinesGo] at hl
      subst hl
      simpa using hacc
  | cons c rest ih =>
      intro acc hacc l hl
      simp only [splitlinesGo] at hl
      by_cases hc : c = '\n'
      · rw [if_pos hc] at hl
        rcases List.mem_cons.mp hl with hl | hl
        · subst hl
          simpa using hacc
        · by_cases hr : rest.isEmpty
          · rw [if_pos hr] at hl
            simp at hl
          · rw [if_neg hr] at hl
            exact ih [] (by simp) l hl
      · rw [if_neg hc] at hl
        refine ih (c :: acc) ?_ l hl
        intro hmem
        rcases List.mem_cons.mp hmem with h | h
        · exact hc h.symm
        · exact hacc h

theorem pySplitlines_no_newline (s : List Char) :
    ∀ l ∈ pySplitlines s, ('\n' : Char) ∉ l := by
  intro l hl
  cases s with
  | nil => simp [pySplitlines] at hl
  | cons c t => exact splitlinesGo_no_newline (c :: t) [] (by simp) l hl

theorem splitlinesGo_line_append (t : List Char) :
    ∀ (l acc : List Char), ('\n' : Char) ∉ l →
      splitlinesGo (l ++ '\n' :: t) acc =
        (acc.reverse ++ l) :: (if t.isEmpty then [] else splitlinesGo t []) := by
  intro l
  induction l with
  | nil =>
      intro acc _
      simp [splitlinesGo]
  | cons c l' ih =>
      intro acc hl
      have hc : ¬(c = '\n') := fun h => hl (by simp [h])
      simp only [List.cons_append, splitlinesGo, if_neg hc, List.append_eq]
      rw [ih (c :: acc) (fun h => hl (List.mem_cons_of_mem c h))]
      simp

theorem joinAll_append (xs ys : List (List Char)) :
    joinAll (xs ++ ys) = joinAll xs ++ joinAll ys := by
  induction xs with
  | nil => rfl
  | cons x xs ih => simp [joinAll, ih]

theorem joinAll_bucGo (M : Int) :
    ∀ (lines : List (List Char)) (cur : List Char) (res : List (List Char)),
      joinAll (bucGo M lines cur res) =
        joinAll res ++ cur ++ joinAll (lines.map (fun l => l ++ ['\n'])) := by
  intro lines
  induction lines with
  | nil =>
      intro cur res
      simp [bucGo, joinAll_append, joinAll]
  | cons line rest ih =>
      intro cur res
      simp only [bucGo]
      by_cases hcond : (cur.length : Int) + (line.length : Int) > M
      · rw [if_pos hcond, ih]
        simp [joinAll_append, joinAll, List.append_assoc]
      · rw [if_neg hcond, ih]
        simp [joinAll, List.append_assoc]

theorem pySplitlines_reconstruct :
    ∀ (lines : List (List Char)), (∀ l ∈ lines, ('\n' : Char) ∉ l) →
      pySplitlines (joinAll (lines.map (fun l => l ++ ['\n']))) = lines := by
  intro lines
  induction lines with
  | nil => intro _; rfl
  | cons l rest ih =>
      intro h
      have hl : ('\n' : Char) ∉ l := h l (by simp)
      have hrest : ∀ m ∈ rest, ('\n' : Char) ∉ m := fun m hm => h m (by simp [hm])
      have hjoin : joinAll ((l :: rest).map (fun x => x ++ ['\n'])) =
          l ++ '\n' :: joinAll (rest.map (fun x => x ++ ['\n'])) := by
        simp [joinAll]
      rw [hjoin, pySplitlines_cons_eq _ (by cases l <;> simp),
        splitlinesGo_line_append _ l [] hl]
      simp only [List.reverse_nil, List.nil_append]
      cases rest with
      | nil => simp [joinAll]
      | cons r rs =>
          have htail : joinAll ((r :: rs).map (fun x => x ++ ['\n'])) ≠ [] := by
            simp [joinAll]
          rw [if_neg (by rw [isEmpty_false_of_ne_nil htail]; exact Bool.false_ne_true)]
          rw [← pySplitlines_cons_eq _ htail, ih hrest]

theorem bucGo_chunk_bound (M : Int) :
    ∀ (lines : List (List Char)) (cur : List Char) (res : List (List Char)),
      (∀ l ∈ lines, (l.length : Int) ≤ M) →
      (cur.length : Int) ≤ M + 1 →
      (∀ c ∈ res, (c.length : Int) ≤ M + 1) →
      ∀ c ∈ bucGo M lines cur res, (c.length : Int) ≤ M + 1 := by
  intro lines
  induction lines with
  | nil =>
      intro cur res _ hcur hres c hc
      simp [bucGo] at hc
      rcases hc with hc | hc
      · exact hres c hc
      · subst hc
        exact hcur
  | cons line rest ih =>
      intro cur res hlines hcur hres c hc
      have hline : (line.length : Int) ≤ M := hlines line (by simp)
      have hrest : ∀ l ∈ rest, (l.length : Int) ≤ M := fun l hl => hlines l (by simp [hl])
      simp only [bucGo] at hc
      by_cases hcond : (cur.length : Int) + (line.length : Int) > M
      · rw [if_pos hcond] at hc
        refine ih _ _ hrest ?_ ?_ c hc
        · have hlen : (line ++ ['\n']).length = line.length + 1 := by simp
          rw [hlen]
          push_cast
          omega
        · intro d hd
          rcases List.mem_append.mp hd with hd | hd
          · exact hres d hd
          · simp at hd
            subst hd
            exact hcur
      · rw [if_neg hcond] at hc
        refine ih _ _ hrest ?_ hres c hc
        have hlen : (cur ++ line ++ ['\n']).length = cur.length + line.length + 1 := by
          simp
          omega
        rw [hlen]
        push_cast
        omega

theorem bucGo_chunks_ne_nil (M : Int) :
    ∀ (lines : List (List Char)) (cur : List Char) (res : List (List Char)),
      (∀ l ∈ lines, (l.length : Int) ≤ M) →
      (∀ c ∈ res, c ≠ []) →
      (lines = [] → cur ≠ []) →
      ∀ c ∈ bucGo M lines cur res, c ≠ [] := by
  intro lines
  induction lines with
  | nil =>
      intro cur res _ hres hcur c hc
      simp [bucGo] at hc
      rcases hc with hc | hc
      · exact hres c hc
      · subst hc
        exact hcur rfl
  | cons line rest ih =>
      intro cur res hlines hres hcur c hc
      have hline : (line.length : Int) ≤ M := hlines line (by simp)
      have hrest : ∀ l ∈ rest, (l.length : Int) ≤ M := fun l hl => hlines l (by simp [hl])
      simp only [bucGo] at hc
      by_cases hcond : (cur.length : Int) + (line.length : Int) > M
      · rw [if_pos hcond] at hc
        refine ih _ _ hrest ?_ ?_ c hc
        · intro d hd
          rcases List.mem_append.mp hd with hd | hd
          · exact hres d hd
          · simp at hd
            subst hd
            intro hnil
            rw [hnil] at hcond
            simp at hcond
            omega
        · intro _
          simp
      · rw [if_neg hcond] at hc
        refine ih _ _ hrest hres ?_ c hc
        intro _
        simp

theorem buildChunkRecords_length (ti dt fn ct : List Char) (now total : Nat) :
    ∀ (ci : Nat) (chunks : List (List Char)),
      (buildChunkRecords ti dt fn ct now total ci chunks).length = chunks.length := by
  intro ci chunks
  induction chunks generalizing ci with
  | nil => rfl
  | cons ch rest ih => simp [buildChunkRecords, ih]

theorem buildChunkRecords_get (ti dt fn ct : List Char) (now total : Nat) :
    ∀ (chunks : List (List Char)) (ci i : Nat),
      (buildChunkRecords ti dt fn ct now total ci chunks)[i]? =
        (chunks[i]?).map (fun ch =>
          { title := ti ++ (if total > 1 then sectionSuffix (ci + i + 1) total else []),
            chunk := some ch, doc_type := dt, file := fn, content := ct,
            creation_time := now }) := by
  intro chunks
  induction chunks with
  | nil =>
      intro ci i
      simp [buildChunkRecords]
  | cons ch rest ih =>
      intro ci i
      cases i with
      | zero => simp [buildChunkRecords]
      | succ j =>
          have hidx : ci + 1 + j + 1 = ci + (j + 1) + 1 := by omega
          simp only [buildChunkRecords, List.getElem?_cons_succ]
          rw [ih (ci + 1) j, hidx]

theorem buildChunkRecords_chunk_mem (ti dt fn ct : List Char) (now total : Nat) :
    ∀ (chunks : List (List Char)) (ci : Nat) (r : DocRecord),
      r ∈ buildChunkRecords ti dt fn ct now total ci chunks →
      ∃ ch ∈ chunks, r.chunk = some ch := by
  intro chunks
  induction chunks with
  | nil =>
      intro ci r hr
      simp [buildChunkRecords] at hr
  | cons c rest ih =>
      intro ci r hr
      simp only [buildChunkRecords, List.mem_cons] at hr
      rcases hr with hr | hr
      · exact ⟨c, by simp, by rw [hr]⟩
      · obtain ⟨ch, hm, he⟩ := ih (ci + 1) r hr
        exact ⟨ch, by simp [hm], he⟩

theorem add_document_records_chunking (M : Int) (ti dt fn ct : List Char) (now : Nat)
    (hM : 0 < M) (ht : truthy ti = true) (hd : truthy dt = true) (hf : truthy fn = true)
    (hc : truthy ct = true) :
    add_document_records M ti dt fn none (some ct) now =
      Except.ok (buildChunkRecords ti dt fn ct now (break_up_content ct M).length 0
        (break_up_content ct M)) := by
  have hMb : decide (M > 0) = true := decide_eq_true hM
  simp [add_document_records, truthyOpt, ht, hd, hf, hc, hMb]

theorem add_document_records_ok_inv (M : Int) (ti dt fn ct : List Char) (now : Nat)
    (recs : List DocRecord) (hM : 0 < M)
    (hok : add_document_records M ti dt fn none (some ct) now = Except.ok recs) :
    recs = buildChunkRecords ti dt fn ct now (break_up_content ct M).length 0
      (break_up_content ct M) := by
  by_cases hc : truthy ct
  · by_cases ht : truthy ti
    · by_cases hd : truthy dt
      · by_cases hf : truthy fn
        · rw [add_document_records_chunking M ti dt fn ct now hM ht hd hf hc] at hok
          exact (Except.ok.inj hok).symm
        · exfalso
          simp [add_document_records, truthyOpt, hc, ht, hd, hf] at hok
      · exfalso
        simp [add_document_records, truthyOpt, hc, ht, hd] at hok
    · exfalso
      simp [add_document_records, truthyOpt, hc, ht] at hok
  · exfalso
    simp [add_document_records, truthyOpt, hc] at hok

theorem retryOp_allFail_eq {α : Type} (op : Nat → CallResult α) (reconnect : Nat → Bool)
    (hop : ∀ k, op k = CallResult.connError) (hre : ∀ k, reconnect k = true) :
    ∀ (x made : Nat),
      retryOp op reconnect x made = (OpOutcome.connectionExhausted, made + x) := by
  intro x
  induction x with
  | zero =>
      intro made
      simp [retryOp]
  | succ n ih =>
      intro made
      simp only [retryOp, hop made, hre made, if_true]
      rw [ih (made + 1)]
      congr 1
      omega

/-! ## Claim theorems -/

/-- C1: the claim says `get_document` must fail with `NotFound` when the id
resolves to no record.  The source instead reads `udocs.objects[0]` on the
empty result, raising an uncaught `IndexError` — the spec itself flags this
as a bug to avoid.  Evaluated here on an empty collection with id 42. -/
theorem get_document_missing_id_raises_index_error :
    get_document [] 42 = Except.error PyError.indexError ∧
    PyError.indexError ≠ PyError.notFound :=
  ⟨rfl, by decide⟩

/-- C4: when every one of the `R` budgeted attempts of the wrapped remote
call fails with a connectivity error and each reconnect returns, the retry
loop makes at most `R` attempts and surfaces the connection-exhausted
failure. -/
theorem retry_exhaustion_surfaces_connection_exhausted {α : Type}
    (op : Nat → CallResult α) (reconnect : Nat → Bool) (R : Nat)
    (hop : ∀ k, op k = CallResult.connError) (hre : ∀ k, reconnect k = true) :
    (retryOp op reconnect R 0).2 ≤ R ∧
    (retryOp op reconnect R 0).1 = OpOutcome.connectionExhausted := by
  rw [retryOp_allFail_eq op reconnect hop hre R 0]
  exact ⟨by omega, rfl⟩

theorem retry_exhaustion_surfaces_connection_exhausted_witness :
    (retryOp (fun _ => (CallResult.connError : CallResult Nat)) (fun _ => true) 2 0).2 ≤ 2 ∧
    (retryOp (fun _ => (CallResult.connError : CallResult Nat)) (fun _ => true) 2 0).1 =
      OpOutcome.connectionExhausted :=
  retry_exhaustion_surfaces_connection_exhausted (fun _ => CallResult.connError)
    (fun _ => true) 2 (fun _ => rfl) (fun _ => rfl)

/-- C6: a text whose length is at most the positive maximum is returned by
`break_up_content` as a single chunk, unchanged and with no separator
added. -/
theorem break_up_content_short_text (text : List Char) (M : Int) (hM : 0 < M)
    (hlen : (text.length : Int) ≤ M) : break_up_content text M = [text] := by
  simp only [break_up_content, if_neg (not_lt.mpr hlen)]

theorem break_up_content_short_text_witness :
    break_up_content "ab".data 3 = ["ab".data] :=
  break_up_content_short_text "ab".data 3 (by decide) (by decide)

/-- C8: deleting by an id no stored record carries, or by a filename no
stored record carries, leaves the collection unchanged and returns an
empty/`False` result instead of raising. -/
theorem delete_document_missing_is_noop (objs : List StoredObject) (u : Nat)
    (fn : List Char) (hu : ∀ o ∈ objs, o.uuid ≠ u) (hf : ∀ o ∈ objs, o.file ≠ fn) :
    delete_document objs (some u) none = Except.ok (objs, some false) ∧
    delete_document objs none (some fn) = Except.ok (objs, none) := by
  constructor
  · have h1 : objs.filter (fun o => o.uuid != u) = objs :=
      List.filter_eq_self.mpr (fun o ho => by simp [hu o ho])
    have h2 : objs.any (fun o => o.uuid == u) = false := by
      rw [List.any_eq_false]
      intro o ho
      simp [hu o ho]
    simp [delete_document, delete_by_id, h1, h2]
  · have h3 : objs.filter (fun o => o.file == fn) = [] := by
      rw [List.filter_eq_nil_iff]
      intro o ho
      simp [hf o ho]
    simp [delete_document, h3]

theorem delete_document_missing_is_noop_witness :
    delete_document [] (some 0) none = Except.ok ([], some false) ∧
    delete_document [] none (some "x".data) = Except.ok ([], none) :=
  delete_document_missing_is_noop [] 0 "x".data (by simp) (by simp)

/-- C9: with a retry budget of 0, the shared retry loop raises the
connection-exhausted failure before making a single remote-call attempt —
whatever the remote call would have returned — and `connect` likewise raises
before a single connection attempt. -/
theorem zero_retry_budget_raises_immediately {α : Type} (op : Nat → CallResult α)
    (reconnect : Nat → Bool) (conn : Nat → Bool) :
    retryOp op reconnect 0 0 = (OpOutcome.connectionExhausted, 0) ∧
    connect conn 0 =
      (Except.error (PyError.weaviateConnectionError "Unable to connect to Weaviate"), 0) :=
  ⟨rfl, rfl⟩

/-- C10: with no pre-chunked fragment, non-empty content and a non-positive
configured maximum chunk size (as stored by `set_max_chunk_size`),
`add_document` builds exactly one record and its `chunk` field is `None`. -/
theorem add_document_nonpositive_max_single_record (cfg : DocumentsConfig) (size : Int)
    (title doc_type filename content : List Char) (now : Nat)
    (hsize : size ≤ 0) (ht : title ≠ []) (hd : doc_type ≠ []) (hf : filename ≠ [])
    (hc : content ≠ []) :
    add_document_records (set_max_chunk_size cfg size).max_chunk_size title doc_type
      filename none (some content) now =
      Except.ok [{ title := title, chunk := none, doc_type := doc_type,
                   file := filename, content := content, creation_time := now }] := by
  have hct := truthy_of_ne_nil hc
  have htt := truthy_of_ne_nil ht
  have hdt := truthy_of_ne_nil hd
  have hft := truthy_of_ne_nil hf
  simp [add_document_records, set_max_chunk_size, truthyOpt, hct, htt, hdt, hft,
    not_lt.mpr hsize]

/-- C2 counterexample: in `"aaa\nbbb"` with maximum 3 no line is longer than
3, yet the chunk `"aaa\n"` produced by `break_up_content` has length 4 — the
appended separator is not counted by the loop's size check, so a chunk can
exceed the configured maximum even when no single line does. -/
theorem chunk_over_max_cex :
    (∀ l ∈ pySplitlines "aaa\nbbb".data, (l.length : Int) ≤ 3) ∧
    "aaa\n".data ∈ break_up_content "aaa\nbbb".data 3 ∧
    (3 : Int) < (("aaa\n".data).length : Int) := by
  refine ⟨?_, by decide, by decide⟩
  decide

/-- C2 (amended): when no line of the text is longer than the positive
maximum `M`, every chunk produced by `break_up_content` — and hence the
`chunk` field of every record built by `add_document` without a pre-chunked
fragment — has length at most `M + 1` (the trailing separator the chunker
appends can push a chunk one character past `M`). -/
theorem chunk_length_bound (M : Int) (text : List Char) (hM : 0 < M)
    (hl : ∀ l ∈ pySplitlines text, (l.length : Int) ≤ M) :
    (∀ c ∈ break_up_content text M, (c.length : Int) ≤ M + 1) ∧
    (∀ title doc_type filename : List Char, ∀ now : Nat, ∀ recs : List DocRecord,
      add_document_records M title doc_type filename none (some text) now = Except.ok recs →
      ∀ r ∈ recs, ∀ ch, r.chunk = some ch → (ch.length : Int) ≤ M + 1) := by
  have hmain : ∀ c ∈ break_up_content text M, (c.length : Int) ≤ M + 1 := by
    unfold break_up_content
    by_cases hlen : (text.length : Int) > M
    · rw [if_pos hlen]
      refine bucGo_chunk_bound M (pySplitlines text) [] [] hl ?_ ?_
      · simp
        omega
      · simp
    · rw [if_neg hlen]
      intro c hc
      simp at hc
      subst hc
      omega
  refine ⟨hmain, ?_⟩
  intro ti dt fn now recs hok r hr ch hch
  rw [add_document_records_ok_inv M ti dt fn text now recs hM hok] at hr
  obtain ⟨ch', hm, he⟩ := buildChunkRecords_chunk_mem ti dt fn text now
    (break_up_content text M).length (break_up_content text M) 0 r hr
  rw [hch] at he
  rw [Option.some.inj he]
  exact hmain ch' hm

theorem chunk_length_bound_witness :
    (∀ c ∈ break_up_content "aaa\nbbb".data 3, (c.length : Int) ≤ 3 + 1) ∧
    (∀ title doc_type filename : List Char, ∀ now : Nat, ∀ recs : List DocRecord,
      add_document_records 3 title doc_type filename none (some "aaa\nbbb".data) now =
        Except.ok recs →
      ∀ r ∈ recs, ∀ ch, r.chunk = some ch → (ch.length : Int) ≤ 3 + 1) :=
  chunk_length_bound 3 "aaa\nbbb".data (by decide) (by decide)

/-- C3 counterexample: `"aaaa"` is non-empty and 3 is positive, yet
`break_up_content "aaaa" 3` contains the empty chunk — the first line is
longer than the maximum, so the loop flushes the still-empty buffer. -/
theorem empty_chunk_cex :
    "aaaa".data ≠ [] ∧ (0 : Int) < 3 ∧ [] ∈ break_up_content "aaaa".data 3 := by
  refine ⟨by decide, by decide, ?_⟩
  decide

/-- C3 (amended): for a non-empty text and a positive maximum `M`, no chunk
produced by `break_up_content` is empty provided no single line of the text
is longer than `M`; an empty chunk can occur only when the text is empty or
some line alone exceeds the maximum. -/
theorem break_up_content_no_empty_chunk (text : List Char) (M : Int) (hM : 0 < M)
    (htext : text ≠ []) (hl : ∀ l ∈ pySplitlines text, (l.length : Int) ≤ M) :
    ∀ c ∈ break_up_content text M, c ≠ [] := by
  unfold break_up_content
  by_cases hlen : (text.length : Int) > M
  · rw [if_pos hlen]
    refine bucGo_chunks_ne_nil M (pySplitlines text) [] [] hl (by simp) ?_
    intro hnil
    cases text with
    | nil => exact absurd rfl htext
    | cons a t => exact absurd hnil (splitlinesGo_ne_nil (a :: t) [])
  · rw [if_neg hlen]
    intro c hc
    simp at hc
    subst hc
    exact htext

theorem break_up_content_no_empty_chunk_witness :
    "aaa\n".data ≠ ([] : List Char) :=
  break_up_content_no_empty_chunk "aaa\nbb".data 3 (by decide) (by decide) (by decide)
    "aaa\n".data (by decide)

/-- C5: `add_document` with non-empty content, no pre-chunked fragment and a
positive maximum chunk size builds one record per fragment of
`break_up_content`: all records share the given `file`, `doc_type` and full
`content`; record `i` carries fragment `i` as its `chunk`; and record `i`'s
title is the given title suffixed with `" - Section i+1 of N"` exactly when
`N > 1`, the given title unchanged when `N = 1`. -/
theorem add_document_chunk_record_fields (M : Int) (title doc_type filename content : List Char)
    (now : Nat) (hM : 0 < M) (ht : title ≠ []) (hd : doc_type ≠ []) (hf : filename ≠ [])
    (hc : content ≠ []) :
    ∃ recs, add_document_records M title doc_type filename none (some content) now =
        Except.ok recs ∧
      recs.length = (break_up_content content M).length ∧
      ∀ i, i < (break_up_content content M).length →
        recs[i]? = some
          { title := if 1 < (break_up_content content M).length
                     then title ++ sectionSuffix (i + 1) (break_up_content content M).length
                     else title,
            chunk := (break_up_content content M)[i]?,
            doc_type := doc_type, file := filename, content := content,
            creation_time := now } := by
  refine ⟨buildChunkRecords title doc_type filename content now
      (break_up_content content M).length 0 (break_up_content content M), ?_, ?_, ?_⟩
  · exact add_document_records_chunking M title doc_type filename content now hM
      (truthy_of_ne_nil ht) (truthy_of_ne_nil hd) (truthy_of_ne_nil hf)
      (truthy_of_ne_nil hc)
  · exact buildChunkRecords_length title doc_type filename content now
      (break_up_content content M).length 0 (break_up_content content M)
  · intro i hi
    rw [buildChunkRecords_get, List.getElem?_eq_getElem hi]
    simp only [Option.map_some', Nat.zero_add]
    by_cases hN : 1 < (break_up_content content M).length
    · simp [hN]
    · simp [hN]

theorem add_document_chunk_record_fields_witness :
    ∃ recs, add_document_records 3 "T".data "TXT".data "f.txt".data none
        (some "aaa\nbbb".data) 7 = Except.ok recs ∧
      recs.length = (break_up_content "aaa\nbbb".data 3).length ∧
      ∀ i, i < (break_up_content "aaa\nbbb".data 3).length →
        recs[i]? = some
          { title := if 1 < (break_up_content "aaa\nbbb".data 3).length
                     then "T".data ++ sectionSuffix (i + 1)
                       (break_up_content "aaa\nbbb".data 3).length
                     else "T".data,
            chunk := (break_up_content "aaa\nbbb".data 3)[i]?,
            doc_type := "TXT".data, file := "f.txt".data, content := "aaa\nbbb".data,
            creation_time := 7 } :=
  add_document_chunk_record_fields 3 "T".data "TXT".data "f.txt".data "aaa\nbbb".data 7
    (by decide) (by decide) (by decide) (by decide) (by decide)

/-- C7: concatenating the chunks produced by `break_up_content` (each chunk
already carries the separators the chunker added) yields a text with exactly
the original text's lines, in their original order. -/
theorem break_up_content_preserves_lines (text : List Char) (M : Int) (hM : 0 < M) :
    pySplitlines (joinAll (break_up_content text M)) = pySplitlines text := by
  unfold break_up_content
  by_cases hlen : (text.length : Int) > M
  · rw [if_pos hlen, joinAll_bucGo]
    simp only [joinAll, List.nil_append]
    exact pySplitlines_reconstruct (pySplitlines text) (pySplitlines_no_newline text)
  · rw [if_neg hlen]
    simp [joinAll]

theorem break_up_content_preserves_lines_witness :
    pySplitlines (joinAll (break_up_content "aaa\nbbb".data 3)) =
      pySplitlines "aaa\nbbb".data :=
  break_up_content_preserves_lines "aaa\nbbb".data 3 (by decide)

theorem add_document_nonpositive_max_single_record_witness :
    add_document_records (set_max_chunk_size ⟨3, 1024⟩ 0).max_chunk_size "T".data
      "TXT".data "f.txt".data none (some "hello".data) 7 =
      Except.ok [{ title := "T".data, chunk := none, doc_type := "TXT".data,
                   file := "f.txt".data, content := "hello".data, creation_time := 7 }] :=
  add_document_nonpositive_max_single_record ⟨3, 1024⟩ 0 "T".data "TXT".data
    "f.txt".data "hello".data 7 (by decide) (by decide) (by decide) (by decide)
    (by decide)

end TinyLLM
